import Mathlib

/-!
Verification of the per-user persistence and meal-plan core of the
Recipe Finder & Meal Planner application (models.py, file_helpers.py,
and the login route of app.py), via a shallow embedding.

Modelling conventions:
* Python dicts keyed by strings become insertion-ordered association
  lists `List (String × α)`; `d[k] = v` is `setKey` (update in place,
  append when absent) and `d.get(k)` is `getKey?`, matching Python's
  insertion-order preservation.
* JSON records become structures with `Option`-typed fields (a missing
  key is `none`); the record produced by `to_dict` has all fields `some`.
* The per-user favorites file is `Option (List RecipeDict)` (`none` when
  the file does not exist), the per-user meal-plan file is
  `Option MealPlanDict`, and the users file is a `List User` (the JSON
  list of serialized accounts).  File-reading helpers return the file
  state unchanged alongside their result; file-writing helpers return
  the new file state.
* `uuid.uuid4()` becomes an explicit `freshId` argument; werkzeug's
  `generate_password_hash` / `check_password_hash` become explicit
  function arguments (they are an external collaborator).
* Python `str.lower` / `str.strip` are embedded as structural functions
  over the character list (ASCII case folding, ASCII whitespace), which
  is exact on all inputs appearing in this development.
-/

namespace RecipeApp

/-- ASCII lowercase of one character, as Python str.lower acts on ASCII. -/
def lowerChar (c : Char) : Char :=
  if 65 ≤ c.toNat ∧ c.toNat ≤ 90 then Char.ofNat (c.toNat + 32) else c

/-- Case folding used for usernames: Python str.lower (ASCII range). -/
def lower (s : String) : String := ⟨s.data.map lowerChar⟩

/-- Python str.strip: drop whitespace from both ends of a string. -/
def strip (s : String) : String :=
  ⟨((s.data.dropWhile Char.isWhitespace).reverse.dropWhile Char.isWhitespace).reverse⟩

/-- Python dict assignment `d[k] = v` on an insertion-ordered association
list: update the value in place when the key is present, append otherwise. -/
def setKey {α : Type} : List (String × α) → String → α → List (String × α)
  | [], k, v => [(k, v)]
  | (k0, v0) :: rest, k, v =>
      if k0 = k then (k, v) :: rest else (k0, v0) :: setKey rest k v

/-- Python dict lookup `d.get(k)` on an association list. -/
def getKey? {α : Type} : List (String × α) → String → Option α
  | [], _ => none
  | (k0, v0) :: rest, k => if k0 = k then some v0 else getKey? rest k

/-! ## Entity model: Recipe (models.py, class Recipe) -/

/-- A recipe value: the fields set by `Recipe.__init__`. -/
structure Recipe where
  id : String
  name : String
  category : String
  area : String
  instructions : String
  thumbnail_url : String
  ingredients : List String
  youtube_url : String
deriving DecidableEq, Repr

/-- The flat serialized record for a Recipe: every field optional, since a
stored record may miss keys (`data.get(key, default)` in the source). -/
structure RecipeDict where
  id : Option String
  name : Option String
  category : Option String
  area : Option String
  instructions : Option String
  thumbnail_url : Option String
  ingredients : Option (List String)
  youtube_url : Option String
deriving DecidableEq, Repr

/-- Recipe.to_dict: serialize every field. -/
def Recipe.to_dict (r : Recipe) : RecipeDict :=
  ⟨some r.id, some r.name, some r.category, some r.area, some r.instructions,
   some r.thumbnail_url, some r.ingredients, some r.youtube_url⟩

/-- Recipe.from_dict: `data.get(key, default)` for every field. -/
def Recipe.from_dict (data : RecipeDict) : Recipe :=
  ⟨data.id.getD "", data.name.getD "", data.category.getD "", data.area.getD "",
   data.instructions.getD "", data.thumbnail_url.getD "",
   data.ingredients.getD [], data.youtube_url.getD ""⟩

/-! ## Recipe.from_api (models.py, lines 105-119)

The raw external-service record is a JSON object whose values may be
strings or null: `List (String × Option String)`.  `meal.get(key, "") or ""`
yields `""` both when the key is absent and when its value is null. -/

/-- Python `meal.get(key, "") or ""`: the string value at `key`, with an
absent key or a null value collapsed to the empty string. -/
def apiGet (meal : List (String × Option String)) (key : String) : String :=
  match getKey? meal key with
  | some (some s) => s
  | _ => ""

/-- The ingredient name at index `counter`: `meal.get(f"strIngredient{counter}", "") or ""`. -/
def apiIngredient (meal : List (String × Option String)) (counter : Nat) : String :=
  apiGet meal (String.append "strIngredient" (toString counter))

/-- The measure at index `counter`: `meal.get(f"strMeasure{counter}", "") or ""`. -/
def apiMeasure (meal : List (String × Option String)) (counter : Nat) : String :=
  apiGet meal (String.append "strMeasure" (toString counter))

/-- The rendered ingredient line for one index:
`f"{measure.strip()} {ingredient.strip()}".strip()`. -/
def ingredientLine (meal : List (String × Option String)) (counter : Nat) : String :=
  strip (String.append (strip (apiMeasure meal counter))
    (String.append " " (strip (apiIngredient meal counter))))

/-- Recipe.from_api: scan the indexed ingredient/measure pairs 1..20 in
order, keeping an entry exactly when the stripped ingredient name is
non-empty, then fill the remaining fields from the record. -/
def Recipe.from_api (meal : List (String × Option String)) : Recipe :=
  let ingredients := (List.range' 1 20).foldl
    (fun acc counter =>
      if strip (apiIngredient meal counter) = "" then acc
      else acc ++ [ingredientLine meal counter]) []
  ⟨apiGet meal "idMeal", apiGet meal "strMeal", apiGet meal "strCategory",
   apiGet meal "strArea", apiGet meal "strInstructions", apiGet meal "strMealThumb",
   ingredients, apiGet meal "strYoutube"⟩

/-! ## Entity model: User (models.py, class User) -/

/-- A registered user account. -/
structure User where
  id : String
  username : String
  password_hash : String
deriving DecidableEq, Repr

/-- The flat serialized record for a User. -/
structure UserDict where
  id : Option String
  username : Option String
  password_hash : Option String
deriving DecidableEq, Repr

/-- User.to_dict: serialize every field. -/
def User.to_dict (u : User) : UserDict :=
  ⟨some u.id, some u.username, some u.password_hash⟩

/-- User.from_dict: the source reads `data["id"]`, `data["username"]` and
`data["password_hash"]` with bracket access, which raises KeyError when a
key is missing; the fallible access is embedded as `Option`. -/
def User.from_dict (data : UserDict) : Option User :=
  match data.id, data.username, data.password_hash with
  | some i, some un, some ph => some ⟨i, un, ph⟩
  | _, _, _ => none

/-- User.create: build a User with a hashed password; the hashing primitive
(werkzeug's generate_password_hash) is an explicit argument. -/
def User.create (hashFn : String → String) (user_id username password : String) : User :=
  ⟨user_id, username, hashFn password⟩

/-- User.check_password: verify a password against the stored hash; the
verifying comparator (werkzeug's check_password_hash) is an explicit
argument. -/
def User.check_password (chk : String → String → Bool) (u : User) (password : String) : Bool :=
  chk u.password_hash password

/-! ## Entity model: MealPlan (models.py, class MealPlan) -/

/-- A 7-day meal plan: the `plan` dict maps day names to an optional
Recipe, as an insertion-ordered association list. -/
structure MealPlan where
  id : String
  plan : List (String × Option Recipe)
deriving DecidableEq, Repr

/-- MealPlan.DAYS: the seven canonical day names. -/
def MealPlan.DAYS : List String :=
  ["Monday", "Tuesday", "Wednesday", "Thursday", "Friday", "Saturday", "Sunday"]

/-- MealPlan.__init__: id "weekly_plan", every canonical day mapped to None. -/
def MealPlan.init : MealPlan :=
  ⟨"weekly_plan", MealPlan.DAYS.map (fun day => (day, none))⟩

/-- MealPlan.assign_meal: if `day_name in self.plan` overwrite the slot and
return True, else return False leaving the plan unchanged.  The mutated
object is returned alongside the boolean. -/
def MealPlan.assign_meal (mp : MealPlan) (day_name : String) (recipe : Recipe) :
    Bool × MealPlan :=
  if (getKey? mp.plan day_name).isSome = true then
    (true, ⟨mp.id, setKey mp.plan day_name (some recipe)⟩)
  else (false, mp)

/-- MealPlan.remove_meal: if `day_name in self.plan` set the slot to None
and return True, else return False leaving the plan unchanged. -/
def MealPlan.remove_meal (mp : MealPlan) (day_name : String) : Bool × MealPlan :=
  if (getKey? mp.plan day_name).isSome = true then
    (true, ⟨mp.id, setKey mp.plan day_name none⟩)
  else (false, mp)

/-- The flat serialized record for a MealPlan: `{"id": ..., "plan": {...}}`;
a stored record may also miss either key. -/
structure MealPlanDict where
  id : Option String
  plan : Option (List (String × Option RecipeDict))
deriving DecidableEq, Repr

/-- MealPlan.to_dict: serialize each slot, None staying None. -/
def MealPlan.to_dict (mp : MealPlan) : MealPlanDict :=
  ⟨some mp.id, some (mp.plan.map (fun e => (e.1, e.2.map Recipe.to_dict)))⟩

/-- One step of the MealPlan.from_dict loop: skip a None slot value,
otherwise `meal_plan.plan[day] = Recipe.from_dict(recipe_data)`. -/
def planStep (acc : List (String × Option Recipe)) (e : String × Option RecipeDict) :
    List (String × Option Recipe) :=
  match e.2 with
  | none => acc
  | some rd => setKey acc e.1 (some (Recipe.from_dict rd))

/-- MealPlan.from_dict: start from a fresh `cls()` and replay every entry
of `data.get("plan", {})` in stored order. -/
def MealPlan.from_dict (data : MealPlanDict) : MealPlan :=
  ⟨"weekly_plan", (data.plan.getD []).foldl planStep MealPlan.init.plan⟩

/-! ## User directory (file_helpers.py, user account helpers)

The persisted users file is modelled as the list of stored accounts. -/

/-- load_all_users: rebuild the `{ username_lowercase : User }` dict by
inserting each stored user in file order. -/
def load_all_users (store : List User) : List (String × User) :=
  store.foldl (fun acc u => setKey acc (lower u.username) u) []

/-- get_user_by_username: case-insensitive lookup, None when absent. -/
def get_user_by_username (store : List User) (username : String) : Option User :=
  getKey? (load_all_users store) (lower username)

/-- get_user_by_id: scan all users for a matching unique id. -/
def get_user_by_id (store : List User) (user_id : String) : Option User :=
  (load_all_users store).foldr
    (fun e acc => if e.2.id = user_id then some e.2 else acc) none

/-- The three validation error messages of register_user. -/
def validationMsgs : List String :=
  ["Username must be at least 3 characters.",
   "Username must be 30 characters or fewer.",
   "Password must be at least 6 characters."]

/-- The duplicate-username error message of register_user. -/
def duplicateMsg : String := "That username is already taken. Please choose another."

/-- register_user: validate lengths, reject a duplicate case-folded
username, otherwise create the user with a fresh id (`uuid4`, passed in as
`freshId`), insert it and persist the whole directory.  The result pairs
the Python return value `(User | None, error | None)` with the persisted
users file after the call. -/
def register_user (hashFn : String → String) (store : List User)
    (username password freshId : String) : (Option User × Option String) × List User :=
  if username.length < 3 then
    ((none, some "Username must be at least 3 characters."), store)
  else if 30 < username.length then
    ((none, some "Username must be 30 characters or fewer."), store)
  else if password.length < 6 then
    ((none, some "Password must be at least 6 characters."), store)
  else
    let all_users := load_all_users store
    if (getKey? all_users (lower username)).isSome = true then
      ((none, some duplicateMsg), store)
    else
      let new_user := User.create hashFn freshId username password
      ((some new_user, none), (setKey all_users (lower username) new_user).map Prod.snd)

/-- authenticate: the login route's core (app.py lines 108-115): look the
username up case-insensitively, fail when absent or when the password does
not verify against the stored hash, otherwise return the user.  Both
failure cases produce the same observable result. -/
def authenticate (chk : String → String → Bool) (store : List User)
    (username password : String) : Option User :=
  match get_user_by_username store username with
  | none => none
  | some user => if User.check_password chk user password then some user else none

/-! ## Favorites store (file_helpers.py, favorites helpers)

The per-user favorites file is `Option (List RecipeDict)`: `none` when the
file does not exist. -/

/-- load_favorites: empty list when the file is absent, otherwise parse
every stored record; the file state is returned unchanged (the function
performs no write). -/
def load_favorites (st : Option (List RecipeDict)) : List Recipe × Option (List RecipeDict) :=
  match st with
  | none => ([], none)
  | some raw => (raw.map Recipe.from_dict, some raw)

/-- save_favorites: full overwrite of the user's favorites file. -/
def save_favorites (favorites_list : List Recipe) : Option (List RecipeDict) :=
  some (favorites_list.map Recipe.to_dict)

/-- add_favorite: load the current list, refuse a duplicate id, otherwise
append and persist. -/
def add_favorite (st : Option (List RecipeDict)) (new_recipe : Recipe) :
    Bool × Option (List RecipeDict) :=
  let current := (load_favorites st).1
  if current.any (fun saved => saved.id == new_recipe.id) then (false, st)
  else (true, save_favorites (current ++ [new_recipe]))

/-- remove_favorite: filter out every recipe with the given id and persist
the remainder unconditionally. -/
def remove_favorite (st : Option (List RecipeDict)) (meal_id : String) :
    Option (List RecipeDict) :=
  save_favorites ((load_favorites st).1.filter (fun r => r.id != meal_id))

/-! ## Meal plan store (file_helpers.py, meal plan helpers) -/

/-- load_meal_plan: an all-empty plan when the file is absent, otherwise
deserialize; the file state is returned unchanged (no write). -/
def load_meal_plan (st : Option MealPlanDict) : MealPlan × Option MealPlanDict :=
  match st with
  | none => (MealPlan.init, none)
  | some d => (MealPlan.from_dict d, some d)

/-- save_meal_plan: full overwrite of the user's meal-plan file. -/
def save_meal_plan (meal_plan : MealPlan) : Option MealPlanDict :=
  some meal_plan.to_dict

/-- clear_meal_plan: persist a brand-new all-empty plan. -/
def clear_meal_plan : Option MealPlanDict :=
  save_meal_plan MealPlan.init

/-! ## Helper lemmas about the dict embedding -/

theorem getKey?_setKey_self {α : Type} (l : List (String × α)) (k : String) (v : α) :
    getKey? (setKey l k v) k = some v := by
  induction l with
  | nil => simp [setKey, getKey?]
  | cons hd tl ih =>
      obtain ⟨k0, v0⟩ := hd
      by_cases h : k0 = k
      · simp [setKey, getKey?, h]
      · simp [setKey, getKey?, h, ih]

theorem getKey?_setKey_ne {α : Type} (l : List (String × α)) (k d : String) (v : α)
    (h : d ≠ k) : getKey? (setKey l k v) d = getKey? l d := by
  induction l with
  | nil => simp [setKey, getKey?, Ne.symm h]
  | cons hd tl ih =>
      obtain ⟨k0, v0⟩ := hd
      by_cases h0 : k0 = k
      · subst h0
        simp [setKey, getKey?, Ne.symm h]
      · simp only [setKey, if_neg h0]
        by_cases h1 : k0 = d
        · simp [getKey?, h1]
        · simp [getKey?, h1, ih]

theorem setKey_map_fst {α : Type} (l : List (String × α)) (k : String) (v : α)
    (h : k ∈ l.map Prod.fst) : (setKey l k v).map Prod.fst = l.map Prod.fst := by
  induction l with
  | nil => simp at h
  | cons hd tl ih =>
      obtain ⟨k0, v0⟩ := hd
      by_cases h0 : k0 = k
      · simp [setKey, h0]
      · rw [List.map_cons] at h
        have hm : k ∈ tl.map Prod.fst := by
          rcases List.mem_cons.mp h with h1 | h1
          · exact absurd h1.symm h0
          · exact h1
        simp [setKey, h0, ih hm]

theorem setKey_not_mem {α : Type} (l : List (String × α)) (k : String) (v : α)
    (h : k ∉ l.map Prod.fst) : setKey l k v = l ++ [(k, v)] := by
  induction l with
  | nil => simp [setKey]
  | cons hd tl ih =>
      obtain ⟨k0, v0⟩ := hd
      have h0 : k0 ≠ k := by
        intro h0
        exact h (by simp [h0])
      have hm : k ∉ tl.map Prod.fst := by
        intro hm
        exact h (by simp [hm])
      simp [setKey, h0, ih hm]

theorem getKey?_isSome_iff {α : Type} (l : List (String × α)) (k : String) :
    (getKey? l k).isSome = true ↔ k ∈ l.map Prod.fst := by
  induction l with
  | nil => simp [getKey?]
  | cons hd tl ih =>
      obtain ⟨k0, v0⟩ := hd
      rw [List.map_cons]
      by_cases h0 : k0 = k
      · subst h0
        simp [getKey?]
      · simp only [getKey?, if_neg h0, ih, List.mem_cons]
        constructor
        · exact fun h => Or.inr h
        · rintro (h | h)
          · exact absurd h.symm h0
          · exact h

theorem setKey_middle {α : Type} (pre tl : List (String × α)) (k : String) (a b : α)
    (h : k ∉ pre.map Prod.fst) :
    setKey (pre ++ (k, a) :: tl) k b = pre ++ (k, b) :: tl := by
  induction pre with
  | nil => simp [setKey]
  | cons hd rest ih =>
      obtain ⟨k0, v0⟩ := hd
      have h0 : k0 ≠ k := by
        intro h0
        exact h (by simp [h0])
      have hm : k ∉ rest.map Prod.fst := by
        intro hm
        exact h (by simp [hm])
      simp [setKey, h0, ih hm]

theorem map_fst_map_pair {α β : Type} (l : List (String × α)) (g : String × α → β) :
    (l.map (fun e => (e.1, g e))).map Prod.fst = l.map Prod.fst := by
  induction l with
  | nil => rfl
  | cons hd tl ih => simp [ih]

/-! ## Structural lemmas about the operations -/

theorem recipe_roundtrip (r : Recipe) : Recipe.from_dict (Recipe.to_dict r) = r := rfl

theorem user_roundtrip (u : User) : User.from_dict (User.to_dict u) = some u := rfl

theorem planStep_foldl_roundtrip (rest : List (String × Option Recipe)) :
    ∀ pre : List (String × Option Recipe),
      ((pre ++ rest).map Prod.fst).Nodup →
      List.foldl planStep (pre ++ rest.map (fun e => (e.1, (none : Option Recipe))))
        (rest.map (fun e => (e.1, Option.map Recipe.to_dict e.2))) = pre ++ rest := by
  induction rest with
  | nil =>
      intro pre h
      simp
  | cons hd tl ih =>
      intro pre h
      obtain ⟨k, o⟩ := hd
      have hmap : (pre ++ (k, o) :: tl).map Prod.fst
          = pre.map Prod.fst ++ k :: tl.map Prod.fst := by simp
      rw [hmap] at h
      have hk : k ∉ pre.map Prod.fst := by
        intro hmem
        exact (List.nodup_append.mp h).2.2 hmem (List.mem_cons_self k (tl.map Prod.fst))
      have hnd : ∀ x : Option Recipe, (((pre ++ [(k, x)]) ++ tl).map Prod.fst).Nodup := by
        intro x
        have hx : ((pre ++ [(k, x)]) ++ tl).map Prod.fst
            = pre.map Prod.fst ++ k :: tl.map Prod.fst := by simp
        rw [hx]
        exact h
      have hassoc : ∀ (x : Option Recipe) (l2 : List (String × Option Recipe)),
          (pre ++ [(k, x)]) ++ l2 = pre ++ (k, x) :: l2 := by
        intro x l2
        simp
      cases o with
      | none =>
          have h1 := ih (pre ++ [(k, (none : Option Recipe))]) (hnd none)
          rw [hassoc, hassoc] at h1
          simpa [planStep] using h1
      | some r =>
          have h1 := ih (pre ++ [(k, some r)]) (hnd (some r))
          rw [hassoc, hassoc] at h1
          simp only [List.map_cons, List.foldl_cons]
          have hstep : planStep
              (pre ++ (k, (none : Option Recipe)) ::
                tl.map (fun e => (e.1, (none : Option Recipe))))
              (k, Option.map Recipe.to_dict (some r))
              = pre ++ (k, some r) :: tl.map (fun e => (e.1, (none : Option Recipe))) := by
            show setKey _ k (some (Recipe.from_dict (Recipe.to_dict r))) = _
            rw [recipe_roundtrip]
            exact setKey_middle pre _ k none (some r) hk
          rw [hstep]
          exact h1

theorem planStep_foldl_keys (entries : List (String × Option RecipeDict)) :
    ∀ acc : List (String × Option Recipe),
      acc.map Prod.fst = MealPlan.DAYS →
      (∀ e ∈ entries, e.1 ∈ MealPlan.DAYS) →
      (List.foldl planStep acc entries).map Prod.fst = MealPlan.DAYS := by
  induction entries with
  | nil =>
      intro acc hacc _
      simpa using hacc
  | cons hd tl ih =>
      intro acc hacc hmem
      obtain ⟨k, o⟩ := hd
      cases o with
      | none =>
          simp only [List.foldl_cons]
          have hs : planStep acc (k, none) = acc := rfl
          rw [hs]
          exact ih acc hacc (fun e he => hmem e (List.mem_cons_of_mem _ he))
      | some rd =>
          simp only [List.foldl_cons]
          have hkin : k ∈ acc.map Prod.fst := by
            rw [hacc]
            exact hmem (k, some rd) (List.mem_cons_self _ _)
          have hs : planStep acc (k, some rd) = setKey acc k (some (Recipe.from_dict rd)) := rfl
          rw [hs]
          exact ih _ ((setKey_map_fst acc k _ hkin).trans hacc)
            (fun e he => hmem e (List.mem_cons_of_mem _ he))

theorem foldl_setKey_users (store : List User) :
    ∀ acc : List (String × User),
      (acc.map Prod.fst ++ store.map (fun u => lower u.username)).Nodup →
      store.foldl (fun a u => setKey a (lower u.username) u) acc
        = acc ++ store.map (fun u => (lower u.username, u)) := by
  induction store with
  | nil =>
      intro acc _
      simp
  | cons u tl ih =>
      intro acc h
      have hmap : acc.map Prod.fst ++ (u :: tl).map (fun w => lower w.username)
          = acc.map Prod.fst ++ lower u.username :: tl.map (fun w => lower w.username) := by
        simp
      rw [hmap] at h
      have hk : lower u.username ∉ acc.map Prod.fst := by
        intro hmem
        exact (List.nodup_append.mp h).2.2 hmem (List.mem_cons_self _ _)
      simp only [List.foldl_cons]
      rw [setKey_not_mem acc _ u hk]
      have hnd : ((acc ++ [(lower u.username, u)]).map Prod.fst
          ++ tl.map (fun w => lower w.username)).Nodup := by
        have hx : (acc ++ [(lower u.username, u)]).map Prod.fst
            ++ tl.map (fun w => lower w.username)
            = acc.map Prod.fst ++ lower u.username :: tl.map (fun w => lower w.username) := by
          simp
        rw [hx]
        exact h
      rw [ih (acc ++ [(lower u.username, u)]) hnd]
      simp

theorem load_all_users_eq (store : List User)
    (h : (store.map (fun u => lower u.username)).Nodup) :
    load_all_users store = store.map (fun u => (lower u.username, u)) := by
  have h1 := foldl_setKey_users store [] (by simpa using h)
  simpa [load_all_users] using h1

theorem foldl_keep_filter (p : Nat → Prop) [DecidablePred p] (g : Nat → String)
    (l : List Nat) :
    ∀ acc : List String,
      l.foldl (fun a c => if p c then a else a ++ [g c]) acc
        = acc ++ (l.filter (fun c => decide (¬ p c))).map g := by
  induction l with
  | nil =>
      intro acc
      simp
  | cons c tl ih =>
      intro acc
      by_cases h : p c
      · simp [h, ih]
      · simp [h, ih]

/-! ## Concrete sample values used by counterexamples and witnesses -/

/-- A stored recipe record with every key missing. -/
def emptyRecipeDict : RecipeDict := ⟨none, none, none, none, none, none, none, none⟩

/-- A stored meal-plan record whose plan carries the non-canonical key
"Funday". -/
def fundayDict : MealPlanDict :=
  ⟨some "weekly_plan", some [("Funday", some emptyRecipeDict)]⟩

/-- A concrete recipe value. -/
def sampleRecipe : Recipe := ⟨"52772", "Beef and Mustard Pie", "", "", "", "", [], ""⟩

/-! ## Claim C7 -/

/-- C7: serialization round-trips — `from_dict (to_dict x) = x` for every
Recipe and every User (for User the fallible deserializer returns `some`),
and for every MealPlan value satisfying the data-model shape (identity
"weekly_plan" and slot keys exactly the seven canonical day names, which
holds for every plan the program constructs from well-formed storage). -/
theorem C7_serialization_roundtrip :
    (∀ r : Recipe, Recipe.from_dict (Recipe.to_dict r) = r) ∧
    (∀ u : User, User.from_dict (User.to_dict u) = some u) ∧
    (∀ mp : MealPlan, mp.id = "weekly_plan" → mp.plan.map Prod.fst = MealPlan.DAYS →
      MealPlan.from_dict (MealPlan.to_dict mp) = mp) := by
  refine ⟨recipe_roundtrip, user_roundtrip, ?_⟩
  intro mp hid hkeys
  obtain ⟨i, pl⟩ := mp
  simp only at hkeys
  have hid2 : i = "weekly_plan" := hid
  subst hid2
  have hinit : MealPlan.init.plan = pl.map (fun e => (e.1, (none : Option Recipe))) := by
    show MealPlan.DAYS.map (fun day => (day, (none : Option Recipe))) = _
    rw [← hkeys, List.map_map]
    rfl
  have h1 := planStep_foldl_roundtrip pl [] (by rw [List.nil_append, hkeys]; decide)
  rw [List.nil_append, ← hinit] at h1
  show (⟨"weekly_plan",
      List.foldl planStep MealPlan.init.plan
        (pl.map (fun e => (e.1, Option.map Recipe.to_dict e.2)))⟩ : MealPlan)
    = ⟨"weekly_plan", pl⟩
  rw [h1]
  simp

/-- C7 witness: the round-trip applied to the all-empty plan. -/
theorem C7_witness :
    MealPlan.init.id = "weekly_plan" ∧
    MealPlan.init.plan.map Prod.fst = MealPlan.DAYS ∧
    MealPlan.from_dict (MealPlan.to_dict MealPlan.init) = MealPlan.init :=
  ⟨rfl, rfl, C7_serialization_roundtrip.2.2 MealPlan.init rfl rfl⟩

/-! ## Claim C2 -/

/-- C2 counterexample: deserializing a stored record whose plan object
carries the non-canonical key "Funday" yields a MealPlan whose slot-key set
contains "Funday", so the slot set is not the seven canonical day names:
`MealPlan.from_dict` copies every stored key into the plan unchecked. -/
theorem C2_counterexample :
    "Funday" ∈ (MealPlan.from_dict fundayDict).plan.map Prod.fst ∧
    "Funday" ∉ MealPlan.DAYS := by decide

/-- C2 (amended): construction yields exactly the canonical slots;
assign_meal, remove_meal and to_dict never add, rename or remove a slot;
and from_dict yields exactly the canonical slots provided every key of the
stored plan object is canonical. -/
theorem C2_slot_keys :
    MealPlan.init.plan.map Prod.fst = MealPlan.DAYS ∧
    (∀ (mp : MealPlan) (day : String) (r : Recipe),
      ((mp.assign_meal day r).2).plan.map Prod.fst = mp.plan.map Prod.fst) ∧
    (∀ (mp : MealPlan) (day : String),
      ((mp.remove_meal day).2).plan.map Prod.fst = mp.plan.map Prod.fst) ∧
    (∀ mp : MealPlan,
      ((MealPlan.to_dict mp).plan.getD []).map Prod.fst = mp.plan.map Prod.fst) ∧
    (∀ d : MealPlanDict, (∀ e ∈ d.plan.getD [], e.1 ∈ MealPlan.DAYS) →
      (MealPlan.from_dict d).plan.map Prod.fst = MealPlan.DAYS) := by
  refine ⟨rfl, ?_, ?_, ?_, ?_⟩
  · intro mp day r
    by_cases h : (getKey? mp.plan day).isSome = true
    · have hmem := (getKey?_isSome_iff mp.plan day).mp h
      simp [MealPlan.assign_meal, h, setKey_map_fst mp.plan day _ hmem]
    · simp [MealPlan.assign_meal, h]
  · intro mp day
    by_cases h : (getKey? mp.plan day).isSome = true
    · have hmem := (getKey?_isSome_iff mp.plan day).mp h
      simp [MealPlan.remove_meal, h, setKey_map_fst mp.plan day _ hmem]
    · simp [MealPlan.remove_meal, h]
  · intro mp
    exact map_fst_map_pair mp.plan (fun e => e.2.map Recipe.to_dict)
  · intro d h
    exact planStep_foldl_keys (d.plan.getD []) MealPlan.init.plan rfl h

/-- C2 witness: from_dict on a stored record whose only plan key is the
canonical "Monday" yields exactly the canonical slots. -/
theorem C2_witness :
    (MealPlan.from_dict
        ⟨some "weekly_plan", some [("Monday", some emptyRecipeDict)]⟩).plan.map Prod.fst
      = MealPlan.DAYS :=
  C2_slot_keys.2.2.2.2 ⟨some "weekly_plan", some [("Monday", some emptyRecipeDict)]⟩
    (by decide)

/-! ## Claim C3 -/

/-- C3 counterexample: User deserialization is not total — the source reads
`data["id"]` etc. with bracket access, so a record with missing fields
fails (KeyError) instead of substituting defaults. -/
theorem C3_counterexample : User.from_dict ⟨none, none, none⟩ = none := rfl

/-- C3 (amended): Recipe and MealPlan deserialization are total, with the
default value substituted for every missing field; User deserialization
succeeds exactly when all three of id, username, password_hash are present
and fails on any missing field. -/
theorem C3_deserialization_defaults :
    (∀ d : RecipeDict, Recipe.from_dict d =
      ⟨d.id.getD "", d.name.getD "", d.category.getD "", d.area.getD "",
       d.instructions.getD "", d.thumbnail_url.getD "", d.ingredients.getD [],
       d.youtube_url.getD ""⟩) ∧
    (∀ d : MealPlanDict, d.plan = none → MealPlan.from_dict d = MealPlan.init) ∧
    (∀ d : UserDict, (User.from_dict d).isSome = true ↔
      (d.id.isSome = true ∧ d.username.isSome = true ∧ d.password_hash.isSome = true)) := by
  refine ⟨fun d => rfl, ?_, ?_⟩
  · intro d h
    show (⟨"weekly_plan", (d.plan.getD []).foldl planStep MealPlan.init.plan⟩ : MealPlan)
      = MealPlan.init
    rw [h]
    rfl
  · intro d
    obtain ⟨i, un, ph⟩ := d
    cases i <;> cases un <;> cases ph <;> simp [User.from_dict]

/-- C3 witness: a meal-plan record with a missing plan key deserializes to
the all-empty default plan. -/
theorem C3_witness :
    (⟨some "weekly_plan", none⟩ : MealPlanDict).plan = none ∧
    MealPlan.from_dict ⟨some "weekly_plan", none⟩ = MealPlan.init :=
  ⟨rfl, C3_deserialization_defaults.2.1 ⟨some "weekly_plan", none⟩ rfl⟩

/-! ## Claim C4 -/

/-- C4: on a plan with the canonical slots, assigning to a non-canonical
day name returns false and leaves the plan unmodified; assigning to a
canonical day returns true, sets exactly that slot to the given recipe
(overwriting any prior value), leaves every other slot unchanged, and
keeps the slot set canonical. -/
theorem C4_assign_meal (mp : MealPlan) (day : String) (r : Recipe)
    (h : mp.plan.map Prod.fst = MealPlan.DAYS) :
    (day ∉ MealPlan.DAYS → mp.assign_meal day r = (false, mp)) ∧
    (day ∈ MealPlan.DAYS →
      (mp.assign_meal day r).1 = true ∧
      getKey? (mp.assign_meal day r).2.plan day = some (some r) ∧
      (∀ d : String, d ≠ day →
        getKey? (mp.assign_meal day r).2.plan d = getKey? mp.plan d) ∧
      (mp.assign_meal day r).2.plan.map Prod.fst = MealPlan.DAYS) := by
  constructor
  · intro hnot
    have hcond : ¬ ((getKey? mp.plan day).isSome = true) := by
      rw [getKey?_isSome_iff, h]
      exact hnot
    simp [MealPlan.assign_meal, hcond]
  · intro hday
    have hcond : (getKey? mp.plan day).isSome = true := by
      rw [getKey?_isSome_iff, h]
      exact hday
    have hmem : day ∈ mp.plan.map Prod.fst := (getKey?_isSome_iff mp.plan day).mp hcond
    refine ⟨by simp [MealPlan.assign_meal, hcond], ?_, ?_, ?_⟩
    · simp [MealPlan.assign_meal, hcond, getKey?_setKey_self]
    · intro d hd
      simp [MealPlan.assign_meal, hcond, getKey?_setKey_ne mp.plan day d (some r) hd]
    · simp [MealPlan.assign_meal, hcond, (setKey_map_fst mp.plan day _ hmem).trans h]

/-- C4 witness: on the fresh plan, "Funday" is rejected without change and
"Friday" is assigned. -/
theorem C4_witness :
    ("Funday" ∉ MealPlan.DAYS) ∧
    MealPlan.init.assign_meal "Funday" sampleRecipe = (false, MealPlan.init) ∧
    ("Friday" ∈ MealPlan.DAYS) ∧
    getKey? (MealPlan.init.assign_meal "Friday" sampleRecipe).2.plan "Friday"
      = some (some sampleRecipe) :=
  ⟨by decide,
   (C4_assign_meal MealPlan.init "Funday" sampleRecipe rfl).1 (by decide),
   by decide,
   ((C4_assign_meal MealPlan.init "Friday" sampleRecipe rfl).2 (by decide)).2.1⟩

/-! ## Claim C1 -/

theorem map_snd_pair (store : List User) :
    (store.map (fun u => (lower u.username, u))).map Prod.snd = store := by
  induction store with
  | nil => rfl
  | cons u tl ih => simp [ih]

theorem map_snd_pair_comp (store : List User) :
    store.map (Prod.snd ∘ fun u => (lower u.username, u)) = store := by
  induction store with
  | nil => rfl
  | cons u tl ih => simp [ih]

/-- C1: register_user returns a validation error and leaves the directory
unchanged when the username length is outside [3,30] or the password
length is below 6; returns the duplicate error and leaves the directory
unchanged when the case-folded username is already registered; otherwise
returns the new User built from the fresh identifier and the hashed
password, and persists the directory with exactly that User appended. -/
theorem C1_register_user (hashFn : String → String) (store : List User)
    (username password freshId : String)
    (hwf : (store.map (fun u => lower u.username)).Nodup) :
    ((username.length < 3 ∨ 30 < username.length ∨ password.length < 6) →
      ∃ e, register_user hashFn store username password freshId = ((none, some e), store) ∧
        e ∈ validationMsgs) ∧
    (3 ≤ username.length → username.length ≤ 30 → 6 ≤ password.length →
      (getKey? (load_all_users store) (lower username)).isSome = true →
      register_user hashFn store username password freshId
        = ((none, some duplicateMsg), store)) ∧
    (3 ≤ username.length → username.length ≤ 30 → 6 ≤ password.length →
      (getKey? (load_all_users store) (lower username)).isSome = false →
      register_user hashFn store username password freshId
        = ((some ⟨freshId, username, hashFn password⟩, none),
           store ++ [⟨freshId, username, hashFn password⟩])) := by
  refine ⟨?_, ?_, ?_⟩
  · intro h
    by_cases h1 : username.length < 3
    · exact ⟨"Username must be at least 3 characters.",
        by simp [register_user, h1], by simp [validationMsgs]⟩
    by_cases h2 : 30 < username.length
    · exact ⟨"Username must be 30 characters or fewer.",
        by simp [register_user, h1, h2], by simp [validationMsgs]⟩
    have h3 : password.length < 6 := by
      rcases h with h | h | h
      · exact absurd h h1
      · exact absurd h h2
      · exact h
    exact ⟨"Password must be at least 6 characters.",
      by simp [register_user, h1, h2, h3], by simp [validationMsgs]⟩
  · intro h3 h30 h6 hdup
    have h1 : ¬ username.length < 3 := by omega
    have h2 : ¬ 30 < username.length := by omega
    have hp : ¬ password.length < 6 := by omega
    simp [register_user, h1, h2, hp, hdup]
  · intro h3 h30 h6 hdup
    have h1 : ¬ username.length < 3 := by omega
    have h2 : ¬ 30 < username.length := by omega
    have hp : ¬ password.length < 6 := by omega
    have hrw := load_all_users_eq store hwf
    rw [hrw] at hdup
    have hnotmem : lower username
        ∉ (store.map (fun u => (lower u.username, u))).map Prod.fst := by
      intro hmem
      rw [← getKey?_isSome_iff, hdup] at hmem
      cases hmem
    have happ := setKey_not_mem (store.map (fun u => (lower u.username, u)))
      (lower username) (User.create hashFn freshId username password) hnotmem
    have happ2 : setKey (store.map (fun u => (lower u.username, u))) (lower username)
        (⟨freshId, username, hashFn password⟩ : User)
        = store.map (fun u => (lower u.username, u))
          ++ [(lower username, (⟨freshId, username, hashFn password⟩ : User))] := happ
    simp [register_user, h1, h2, hp, hrw, hdup, happ2, map_snd_pair, map_snd_pair_comp,
      User.create]

/-- C1 witness: registering "chef" with password "secret1" into the empty
directory succeeds and appends exactly the new user. -/
theorem C1_witness :
    (([] : List User).map (fun u => lower u.username)).Nodup ∧
    register_user (fun _ => "HASH") [] "chef" "secret1" "u1"
      = ((some ⟨"u1", "chef", "HASH"⟩, none), [⟨"u1", "chef", "HASH"⟩]) := by
  refine ⟨by decide, ?_⟩
  have h := (C1_register_user (fun _ => "HASH") [] "chef" "secret1" "u1" (by decide)).2.2
  simpa using h (by decide) (by decide) (by decide) (by decide)

/-! ## Claim C5 -/

theorem favorites_roundtrip (l : List Recipe) : (load_favorites (save_favorites l)).1 = l := by
  show (l.map Recipe.to_dict).map Recipe.from_dict = l
  induction l with
  | nil => rfl
  | cons r tl ih =>
      show Recipe.from_dict (Recipe.to_dict r) :: (tl.map Recipe.to_dict).map Recipe.from_dict
        = r :: tl
      rw [recipe_roundtrip, ih]

/-- C5: add_favorite is idempotent on the recipe identifier — when the
loaded list already holds the id it returns false and leaves the persisted
file untouched, otherwise it returns true and persists the list with the
recipe appended at the end; a second call with any recipe of the same id
then returns false and leaves the persisted file unchanged. -/
theorem C5_add_favorite (st : Option (List RecipeDict)) (r r2 : Recipe)
    (hid : r2.id = r.id) :
    ((load_favorites st).1.any (fun saved => saved.id == r.id) = true →
      add_favorite st r = (false, st)) ∧
    ((load_favorites st).1.any (fun saved => saved.id == r.id) = false →
      (add_favorite st r).1 = true ∧
      (load_favorites (add_favorite st r).2).1 = (load_favorites st).1 ++ [r]) ∧
    (add_favorite (add_favorite st r).2 r2 = (false, (add_favorite st r).2)) := by
  refine ⟨?_, ?_, ?_⟩
  · intro h
    simp [add_favorite, h]
  · intro h
    constructor
    · simp [add_favorite, h]
    · have hstate : (add_favorite st r).2
          = save_favorites ((load_favorites st).1 ++ [r]) := by
        simp [add_favorite, h]
      rw [hstate]
      exact favorites_roundtrip _
  · by_cases hdup : (load_favorites st).1.any (fun saved => saved.id == r.id) = true
    · have h1 : add_favorite st r = (false, st) := by simp [add_favorite, hdup]
      rw [h1]
      have h2 : (load_favorites st).1.any (fun saved => saved.id == r2.id) = true := by
        rw [hid]
        exact hdup
      simp [add_favorite, h2]
    · have hfalse : (load_favorites st).1.any (fun saved => saved.id == r.id) = false := by
        revert hdup
        cases (load_favorites st).1.any (fun saved => saved.id == r.id) <;> simp
      have hstate : (add_favorite st r).2
          = save_favorites ((load_favorites st).1 ++ [r]) := by
        simp [add_favorite, hfalse]
      rw [hstate]
      have hload := favorites_roundtrip ((load_favorites st).1 ++ [r])
      have h2 : ((load_favorites st).1 ++ [r]).any (fun saved => saved.id == r2.id) = true := by
        rw [List.any_append]
        simp [hid]
      simp [add_favorite, hload, h2]

/-- C5 witness: adding the same recipe twice starting from a user with no
favorites file — the second call returns false without modification. -/
theorem C5_witness :
    sampleRecipe.id = sampleRecipe.id ∧
    add_favorite (add_favorite none sampleRecipe).2 sampleRecipe
      = (false, (add_favorite none sampleRecipe).2) :=
  ⟨rfl, (C5_add_favorite none sampleRecipe sampleRecipe rfl).2.2⟩

/-! ## Claim C9 -/

/-- C9: remove_favorite persists exactly the loaded list with every recipe
of the given id filtered out, preserving the order of the rest; when no
recipe carries the id the persisted list is unchanged (a no-op, no error:
the operation is total). -/
theorem C9_remove_favorite (st : Option (List RecipeDict)) (m : String) :
    (load_favorites (remove_favorite st m)).1
      = (load_favorites st).1.filter (fun r => r.id != m) ∧
    ((load_favorites st).1.all (fun r => r.id != m) = true →
      (load_favorites (remove_favorite st m)).1 = (load_favorites st).1) := by
  constructor
  · exact favorites_roundtrip _
  · intro h
    have h1 : (load_favorites st).1.filter (fun r => r.id != m) = (load_favorites st).1 :=
      List.filter_eq_self.mpr (List.all_eq_true.mp h)
    have h0 : remove_favorite st m
        = save_favorites ((load_favorites st).1.filter (fun r => r.id != m)) := rfl
    rw [h0, favorites_roundtrip, h1]

/-- C9 witness: removing an id from a user whose favorites hold one other
recipe leaves the list unchanged. -/
theorem C9_witness :
    (load_favorites (some [Recipe.to_dict sampleRecipe])).1.all
      (fun r => r.id != "no-such-id") = true ∧
    (load_favorites (remove_favorite (some [Recipe.to_dict sampleRecipe]) "no-such-id")).1
      = (load_favorites (some [Recipe.to_dict sampleRecipe])).1 :=
  ⟨by decide, (C9_remove_favorite (some [Recipe.to_dict sampleRecipe]) "no-such-id").2 (by decide)⟩

/-! ## Claim C8 -/

/-- C8: authenticate looks the username up only through its case folding
(so the lookup is case-insensitive), returns none when the username is
absent and returns none when the stored hash does not verify — the two
failure cases produce the identical observable outcome `none`, revealing
nothing about which input was wrong.  The hash comparator is the external
constant-time primitive, passed in abstractly. -/
theorem C8_authenticate (chk : String → String → Bool) (store : List User)
    (u1 u2 password : String) (hcase : lower u1 = lower u2) :
    (authenticate chk store u1 password = authenticate chk store u2 password) ∧
    (get_user_by_username store u1 = none → authenticate chk store u1 password = none) ∧
    (∀ usr : User, get_user_by_username store u1 = some usr →
      chk usr.password_hash password = false →
      authenticate chk store u1 password = none) := by
  refine ⟨?_, ?_, ?_⟩
  · unfold authenticate get_user_by_username
    rw [hcase]
  · intro h
    simp [authenticate, h]
  · intro usr h hchk
    simp [authenticate, h, User.check_password, hchk]

/-- C8 witness: on the empty directory both failure modes yield none, and
the lookup of "Chef" equals the lookup of "chef". -/
theorem C8_witness :
    lower "Chef" = lower "chef" ∧
    authenticate (fun _ _ => false) [] "Chef" "pw"
      = authenticate (fun _ _ => false) [] "chef" "pw" ∧
    get_user_by_username ([] : List User) "Chef" = none ∧
    authenticate (fun _ _ => false) [] "Chef" "pw" = none := by
  refine ⟨by decide, ?_, rfl, ?_⟩
  · exact (C8_authenticate (fun _ _ => false) [] "Chef" "chef" "pw" (by decide)).1
  · exact (C8_authenticate (fun _ _ => false) [] "Chef" "chef" "pw" (by decide)).2.1 rfl

/-! ## Claim C6 -/

/-- The spec's example record: index 3 has a blank ingredient, index 5 has
ingredient "Salt" with measure "1 tsp". -/
def exMeal : List (String × Option String) :=
  [("strIngredient3", some ""), ("strIngredient5", some "Salt"),
   ("strMeasure5", some "1 tsp")]

/-- C6: from_api builds the ingredient list by scanning exactly the
indexed pairs 1..20 in index order, keeping precisely the indices whose
stripped ingredient name is non-empty (so source order is preserved), each
rendered as the trimmed "measure name" line; on the spec's example record
the list is exactly ["1 tsp Salt"], with no entry for the blank index 3. -/
theorem C6_from_api (meal : List (String × Option String)) :
    (Recipe.from_api meal).ingredients
      = ((List.range' 1 20).filter
          (fun c => decide (¬ strip (apiIngredient meal c) = ""))).map (ingredientLine meal) ∧
    (Recipe.from_api exMeal).ingredients = ["1 tsp Salt"] := by
  constructor
  · have h := foldl_keep_filter (fun c => strip (apiIngredient meal c) = "")
      (ingredientLine meal) (List.range' 1 20) []
    simpa [Recipe.from_api] using h
  · decide

/-! ## Claim C10 -/

/-- C10: load_favorites and load_meal_plan are read-only — each returns
the backing file state unchanged, and on an absent file returns the empty
default (empty list, all-empty plan) purely in memory; the default reaches
disk only through a later explicit add/save/clear, which does write. -/
theorem C10_load_readonly :
    (∀ st : Option (List RecipeDict), (load_favorites st).2 = st) ∧
    (load_favorites none).1 = [] ∧
    (∀ st : Option MealPlanDict, (load_meal_plan st).2 = st) ∧
    (load_meal_plan none).1 = MealPlan.init ∧
    (∀ r : Recipe, (add_favorite none r).2 = some [Recipe.to_dict r]) ∧
    save_meal_plan MealPlan.init = some (MealPlan.to_dict MealPlan.init) ∧
    clear_meal_plan = some (MealPlan.to_dict MealPlan.init) := by
  refine ⟨?_, rfl, ?_, rfl, ?_, rfl, rfl⟩
  · intro st
    cases st <;> rfl
  · intro st
    cases st <;> rfl
  · intro r
    rfl

end RecipeApp
